import Mathlib

/-
Verification of the tic-tac-toe engine in src/src/main.rs (module `game`).

Shallow embedding conventions:
- Rust `Option<Player>` cells become `Option Player`; `Vec<Cell>` becomes `List Cell`.
- `usize` indices become `Nat`; `i64` scores become `Int` (the scores computed by the
  program stay far inside the i64 range; `i64::MIN` / `i64::MAX` are the exact
  integers `IMIN` / `IMAX` below).
- A Rust panic (out-of-bounds `Vec` index, or the `usize` underflow of
  `board.len() - 3` in `check_win` for boards shorter than 3) is modelled by
  `Option`: `none` means the program aborts.
- The unbounded Rust recursion of `get_best_move` terminates because every
  recursive call fills one empty cell; the embedding `gbm` takes an explicit
  `fuel` argument and behaves as the Rust code whenever `fuel` is at least the
  number of empty cells (the fuel-exhausted branch is unreachable then, see
  `check_win_NotEnded_pos`).
- Several theorems evaluate the search on concrete boards inside the kernel, so
  the hot definitions (cell access, the win scan, the search loops) are written
  with bare recursors (`Nat.rec`, `List.rec`) and with the concrete decision
  procedures of the core library (`Int.decLe`, `Nat.ble`, a structural equality
  on `Player`), which reduce cheaply; the Rust `for` loops become recursion on
  the trip count.  Each such definition is related to the ordinary library
  functions by an equation lemma right below it (`cellAt_eq_getD`,
  `setCell_eq`, `imax_eq`, ...), and the search loops by the defining equations
  `gbmLoop_zero`, `gbmLoop_succ_skip`, `gbmLoop_succ_max`, `gbmLoop_succ_min`
  (and the `NC` versions), which every proof goes through.
-/

namespace Game

inductive Player where
  | X : Player
  | O : Player
deriving DecidableEq, Repr

inductive MoveError where
  | PlaceIsOccupied : MoveError
  | IndexOutOfRange : MoveError
deriving DecidableEq, Repr

inductive GameResult where
  | Win : Player → GameResult
  | Tie : GameResult
  | NotEnded : GameResult
deriving DecidableEq, Repr

deriving instance DecidableEq for Except

/-- Rust: `type Cell = Option<Player>`. -/
abbrev Cell := Option Player

/-- Rust: `pub type Board = Vec<Cell>`. -/
abbrev Board := List Cell

/-- Rust: `struct TicTacToe { board: Board, turn: Player }`. -/
structure TicTacToe where
  board : Board
  turn : Player
deriving DecidableEq, Repr

/-- Rust: `struct Move { score: i64, index: usize }` with derived lexicographic `Ord`. -/
structure Move where
  score : Int
  index : Nat
deriving DecidableEq, Repr

/-- Rust: `fn turn(turn: Player) -> Player` (the opponent map). -/
def turn : Player → Player
  | Player.X => Player.O
  | Player.O => Player.X

/-- `i64::MIN`. -/
def IMIN : Int := -(2 ^ 63)

/-- `i64::MAX`. -/
def IMAX : Int := 2 ^ 63 - 1

/-- `i64` comparison `<=`, as a Boolean through the core decision procedure. -/
def ileb (a b : Int) : Bool := @decide (a ≤ b) (Int.decLe a b)

/-- `i64` comparison `<`. -/
def iltb (a b : Int) : Bool := @decide (a < b) (Int.decLt a b)

/-- `i64` comparison `==`. -/
def ieqb (a b : Int) : Bool := @decide (a = b) (Int.decEq a b)

/-- `std::cmp::max` on `i64` (returns the second argument when equal). -/
def imax (a b : Int) : Int := if ileb a b then b else a

/-- `std::cmp::min` on `i64` (returns the first argument when equal). -/
def imin (a b : Int) : Int := if ileb b a then b else a

/-- Derived `PartialEq` on `Player`. -/
def playerEqb : Player → Player → Bool
  | Player.X, Player.X => true
  | Player.O, Player.O => true
  | _, _ => false

/-- `std::cmp::max` on `Move` under the derived lexicographic order (field
order: `score`, then `index`); returns the second argument when the two
compare equal. -/
def maxMove (a b : Move) : Move :=
  if iltb a.score b.score || (ieqb a.score b.score && Nat.ble a.index b.index) then b else a

/-- `std::cmp::min` on `Move`: returns the first argument when the two compare
equal. -/
def minMove (a b : Move) : Move :=
  if iltb b.score a.score || (ieqb b.score a.score && Nat.blt b.index a.index) then b else a

/-- The Rust index `board[x]`, for in-bounds `x` (theorem
`c10_accesses_in_bounds` shows every offset probed by the win scan is in
bounds on boards of length ≥ 3).  Written with bare recursors; agrees with
`List.getD` by `cellAt_eq_getD`. -/
def cellAt (b : Board) (i : Nat) : Cell :=
  List.rec (motive := fun _ => Nat → Cell) (fun _ => none)
    (fun c _ ih n => Nat.rec (motive := fun _ => Cell) c (fun m _ => ih m) n) b i

/-- The Rust store `new_board[i] = mark` (after cloning); out-of-range writes
cannot occur in the search, whose indices come from `0..board.len()`.  Agrees
with `List.set` by `setCell_eq`. -/
def setCell (b : Board) (i : Nat) (c : Cell) : Board :=
  List.rec (motive := fun _ => Nat → Board) (fun _ => [])
    (fun a tl ih n => Nat.rec (motive := fun _ => Board) (c :: tl) (fun m _ => a :: ih m) n)
    b i

/-- One probe of `check_win`: `!board[j].is_none() && (j..).step_by(d+1).take(3)
.map(|x| board[x]).all_equal()`.  The three probed cells are read once each;
`all_equal` on the three cells holds exactly when all are occupied by the same
player, given that the first is occupied - which is the match below. -/
def tripleAt (b : Board) (d j : Nat) : Bool :=
  match cellAt b j, cellAt b (j + (d + 1)), cellAt b (j + 2 * (d + 1)) with
  | some p, some q, some r => playerEqb p q && playerEqb q r
  | _, _, _ => false

/-- The inner Rust loop `for j in 0..=last_occurence`, as recursion on the trip
count: scans `count` consecutive start offsets beginning at `j` and returns the
first winner found - `board[j].map(turn).unwrap()`, the `turn` map applied to
the owner of the triple (the `.getD Player.X` default is unreachable because
`tripleAt` requires the first cell to be occupied). -/
def scanJ (b : Board) (d : Nat) : Nat → Nat → Option Player :=
  fun count =>
    Nat.rec (motive := fun _ => Nat → Option Player) (fun _ => none)
      (fun _ ih j =>
        if tripleAt b d j then ((cellAt b j).map turn).getD Player.X
        else ih (j + 1))
      count

/-- The outer Rust loop `for d in 0..=max_distance`, as recursion on the trip
count; for each `d` the inner loop scans `last_occurence + 1 = len - 3 - 2*d + 1`
offsets starting at 0. -/
def scanD (b : Board) (len : Nat) : Nat → Nat → Option Player :=
  fun dcount =>
    Nat.rec (motive := fun _ => Nat → Option Player) (fun _ => none)
      (fun _ ih d =>
        match scanJ b d (len - 3 - 2 * d + 1) 0 with
        | some w => some w
        | none => ih (d + 1))
      dcount

/-- Rust `fn check_win(board: &[Cell]) -> GameResult`, for boards of length ≥ 3
(the panic of `board.len() - 3` on shorter boards is modelled by `check_win?`;
for `len ≥ 3` the Nat subtractions in the loop bounds coincide with the Rust
`usize` ones).  The scan visits `d = 0..=(len-3)/2` and, inside,
`j = 0..=len-3-2*d`, and the first matching probe decides the winner; note the
source returns `GameResult::Win(board[j].map(turn).unwrap())`: the `turn` map
hands the win to the OPPONENT of the triple owner.  If no probe matches and no
cell is empty, the board is a tie. -/
def check_win (b : Board) : GameResult :=
  match scanD b b.length ((b.length - 3) / 2 + 1) 0 with
  | some w => GameResult.Win w
  | none =>
      if b.countP (fun c => c.isNone) = 0 then GameResult.Tie else GameResult.NotEnded

/-- `check_win` as executed: `none` models the abort caused by the `usize`
underflow of `board.len() - 3` when the board has fewer than 3 cells. -/
def check_win? (b : Board) : Option GameResult :=
  if b.length < 3 then none else some (check_win b)

/-- Rust `TicTacToe::with_size(size)`: `board: vec![None; size]`, `turn: Player::X`.
The argument is the total number of cells; no validation is performed. -/
def with_size (size : Nat) : TicTacToe :=
  { board := List.replicate size none, turn := Player.X }

/-- Rust `reset`: `*self = TicTacToe::with_size(self.board.len())`. -/
def reset (g : TicTacToe) : TicTacToe :=
  with_size g.board.length

/-- Rust `player_move`.  Result: `none` models a panic (the unchecked
`self.board[place]` index, or `check_win` on a board shorter than 3 cells);
otherwise the pair of the state after the call and the returned `Result`.
On an occupied cell the Rust function returns before mutating anything, so the
state component is `g` itself. -/
def player_move (g : TicTacToe) (place : Nat) :
    Option (TicTacToe × Except MoveError GameResult) :=
  if place < g.board.length then
    if (g.board.getD place none).isSome then
      some (g, Except.error MoveError.PlaceIsOccupied)
    else
      (check_win? (g.board.set place (some g.turn))).map fun r =>
        ({ board := g.board.set place (some g.turn), turn := turn g.turn }, Except.ok r)
  else
    none

/-- Rust `maxmin_turn`: `Some(if maximizing { self.turn } else { turn(self.turn) })`;
`t` stands for `self.turn`. -/
def maxmin_turn (t : Player) (maximizing : Bool) : Cell :=
  some (if maximizing then t else turn t)

/-- The `for i in 0..board.len()` loop of `get_best_move`, with the recursive
call abstracted as `recur` (it receives the child board and the current `alpha`,
`beta`).  Recursion on the trip count, with `i` the current cell index: skips
occupied cells, overwrites the returned index with `i`, folds with `max`/`min`,
updates `alpha`/`beta`, and breaks as soon as `beta <= alpha`.  Its defining
equations are `gbmLoop_zero`, `gbmLoop_succ_skip`, `gbmLoop_succ_max` and
`gbmLoop_succ_min` below. -/
def gbmLoop (recur : Board → Int → Int → Move) (board : Board) (mark : Cell)
    (maximizing : Bool) : Nat → Nat → Move → Int → Int → Move :=
  fun count =>
    Nat.rec (motive := fun _ => Nat → Move → Int → Int → Move)
      (fun _ best _ _ => best)
      (fun _ ih i best alpha beta =>
        if (cellAt board i).isSome then ih (i + 1) best alpha beta
        else
          let child := recur (setCell board i mark) alpha beta
          let nm : Move := { score := child.score, index := i }
          let best' := if maximizing then maxMove best nm else minMove best nm
          let alpha' := if maximizing then imax alpha nm.score else alpha
          let beta' := if maximizing then beta else imin beta nm.score
          if ileb beta' alpha' then best'
          else ih (i + 1) best' alpha' beta')
      count

/-- Rust `get_best_move(self, board, alpha, beta, maximizing, depth)`; `t`
stands for `self.turn` and `winner == self.turn` for the Boolean
`playerEqb winner t`.  `fuel` bounds the recursion depth; the
`NotEnded`-at-zero-fuel branch is unreachable whenever `fuel` is at least the
number of empty cells, because a `NotEnded` board has an empty cell
(`check_win_NotEnded_pos`) and every recursive call fills one.  Defining
equations: `gbm_win`, `gbm_tie`, `gbm_zero_notEnded`, `gbm_succ_notEnded`. -/
def gbm (t : Player) : Nat → Board → Int → Int → Bool → Nat → Move :=
  Nat.rec (motive := fun _ => Board → Int → Int → Bool → Nat → Move)
    (fun board _ _ maximizing depth =>
      match check_win board with
      | GameResult.Win winner =>
          { score := (if playerEqb winner t then 1 else -1) * 100 +
              (if maximizing then -1 else 1) * (depth : Int),
            index := 0 }
      | GameResult.Tie => { score := 0, index := 0 }
      | GameResult.NotEnded => { score := 0, index := 0 })
    (fun _ ih board alpha beta maximizing depth =>
      match check_win board with
      | GameResult.Win winner =>
          { score := (if playerEqb winner t then 1 else -1) * 100 +
              (if maximizing then -1 else 1) * (depth : Int),
            index := 0 }
      | GameResult.Tie => { score := 0, index := 0 }
      | GameResult.NotEnded =>
          gbmLoop (fun b a bt => ih b a bt (!maximizing) (depth + 1))
            board (maxmin_turn t maximizing) maximizing
            board.length 0
            { score := if maximizing then IMIN else IMAX, index := 0 }
            alpha beta)

/-- The loop with the `if beta <= alpha { break }` cutoff removed: `alpha` and
`beta` are then never read (they only flowed into the removed test and into
recursive calls), so they are omitted from the signature. -/
def gbmLoopNC (recurN : Board → Move) (board : Board) (mark : Cell)
    (maximizing : Bool) : Nat → Nat → Move → Move :=
  fun count =>
    Nat.rec (motive := fun _ => Nat → Move → Move)
      (fun _ best => best)
      (fun _ ih i best =>
        if (cellAt board i).isSome then ih (i + 1) best
        else
          let child := recurN (setCell board i mark)
          let nm : Move := { score := child.score, index := i }
          let best' := if maximizing then maxMove best nm else minMove best nm
          ih (i + 1) best')
      count

/-- `get_best_move` with the alpha-beta cutoff removed (full minimax). -/
def gbmNC (t : Player) : Nat → Board → Bool → Nat → Move :=
  Nat.rec (motive := fun _ => Board → Bool → Nat → Move)
    (fun board maximizing depth =>
      match check_win board with
      | GameResult.Win winner =>
          { score := (if playerEqb winner t then 1 else -1) * 100 +
              (if maximizing then -1 else 1) * (depth : Int),
            index := 0 }
      | GameResult.Tie => { score := 0, index := 0 }
      | GameResult.NotEnded => { score := 0, index := 0 })
    (fun _ ih board maximizing depth =>
      match check_win board with
      | GameResult.Win winner =>
          { score := (if playerEqb winner t then 1 else -1) * 100 +
              (if maximizing then -1 else 1) * (depth : Int),
            index := 0 }
      | GameResult.Tie => { score := 0, index := 0 }
      | GameResult.NotEnded =>
          gbmLoopNC (fun b => ih b (!maximizing) (depth + 1))
            board (maxmin_turn t maximizing) maximizing
            board.length 0
            { score := if maximizing then IMIN else IMAX, index := 0 })

/-- Number of empty cells of a board. -/
def emptyCount (b : Board) : Nat :=
  b.countP (fun c => c.isNone)

/-- Rust `ai_move` (without the debug print): computes
`get_best_move(board.clone(), i64::MIN, i64::MAX, true, 0)` and plays its index
through `player_move`.  Fuel `board.length` dominates the number of empty
cells, so the embedding follows the Rust recursion exactly. -/
def ai_move (g : TicTacToe) : Option (TicTacToe × Except MoveError GameResult) :=
  player_move g (gbm g.turn g.board.length g.board IMIN IMAX true 0).index

/-! Concrete boards used by the claim-level theorems. -/

/-- The board `X O X / O X O / _ _ O` of the spec example, with X to move. -/
def bC1 : Board := [some Player.X, some Player.O, some Player.X,
  some Player.O, some Player.X, some Player.O, none, none, some Player.O]

def gC1 : TicTacToe := { board := bC1, turn := Player.X }

/-- The state after playing index 6 on `gC1`. -/
def gC1after : TicTacToe :=
  { board := [some Player.X, some Player.O, some Player.X,
      some Player.O, some Player.X, some Player.O, some Player.X, none, some Player.O],
    turn := Player.O }

/-- The board `_ X X / X _ _ / _ _ _`: its only run of three equal adjacent cells
in linear order is at offsets 1,2,3, which straddles the first row boundary. -/
def bC2 : Board := [none, some Player.X, some Player.X, some Player.X,
  none, none, none, none, none]

/-- Modelled from the spec: the genuine (non-wrapping) three-in-a-row lines of a
3x3 board — the three rows, three columns and two diagonals, as linear offsets.
Used only to state that a counterexample board has no genuine line. -/
def stdLines3 : List (Nat × Nat × Nat) :=
  [(0, 1, 2), (3, 4, 5), (6, 7, 8), (0, 3, 6), (1, 4, 7), (2, 5, 8), (0, 4, 8), (2, 4, 6)]

/-- Three equal occupied marks at the three given offsets. -/
def lineOwned (b : Board) (l : Nat × Nat × Nat) : Bool :=
  (b.getD l.1 none).isSome && (b.getD l.1 none == b.getD l.2.1 none) &&
    (b.getD l.2.1 none == b.getD l.2.2 none)

/-- The empty 3x3 board. -/
def e9 : Board := List.replicate 9 (none : Cell)

/-- Board `O O O / _ _ _ / _ _ _`: `check_win` finds the O-triple at offsets 0,1,2
and returns `Win (turn O) = Win X`. -/
def bOOO : Board := [some Player.O, some Player.O, some Player.O,
  none, none, none, none, none, none]

/-- Board `O X X / O O _ / _ _ _`, not terminal, four empty cells.  On it the
pruned and the unpruned search return the same score 98 but different indices. -/
def bC4 : Board := [some Player.O, some Player.X, some Player.X,
  some Player.O, some Player.O, none, none, none, none]

/-- Board `O O X / X O X / X _ _`, not terminal, two empty cells 7 and 8; placing
X on either one ends the game with the same score -99. -/
def bC6 : Board := [some Player.O, some Player.O, some Player.X,
  some Player.X, some Player.O, some Player.X, some Player.X, none, none]

end Game

namespace Game

/-! Bridge lemmas: the recursor-based definitions agree with the ordinary
library functions, and the Boolean comparisons with the order relations. -/

lemma cellAt_nil (i : Nat) : cellAt [] i = none := rfl

lemma cellAt_cons_zero (c : Cell) (tl : Board) : cellAt (c :: tl) 0 = c := rfl

lemma cellAt_cons_succ (c : Cell) (tl : Board) (n : Nat) :
    cellAt (c :: tl) (n + 1) = cellAt tl n := rfl

lemma cellAt_eq_getD (b : Board) : ∀ i, cellAt b i = b.getD i none := by
  induction b with
  | nil => intro i; rw [cellAt_nil, List.getD_nil]
  | cons c tl ih =>
    intro i
    cases i with
    | zero => rw [cellAt_cons_zero, List.getD_cons_zero]
    | succ n => rw [cellAt_cons_succ, List.getD_cons_succ, ih]

lemma setCell_nil (i : Nat) (c : Cell) : setCell [] i c = [] := rfl

lemma setCell_cons_zero (a : Cell) (tl : Board) (c : Cell) :
    setCell (a :: tl) 0 c = c :: tl := rfl

lemma setCell_cons_succ (a : Cell) (tl : Board) (n : Nat) (c : Cell) :
    setCell (a :: tl) (n + 1) c = a :: setCell tl n c := rfl

lemma setCell_eq (b : Board) : ∀ (i : Nat) (c : Cell), setCell b i c = b.set i c := by
  induction b with
  | nil => intro i c; rw [setCell_nil, List.set_nil]
  | cons a tl ih =>
    intro i c
    cases i with
    | zero => rw [setCell_cons_zero, List.set_cons_zero]
    | succ n => rw [setCell_cons_succ, List.set_cons_succ, ih]

lemma ileb_ite {γ : Type} (a b : Int) (x y : γ) :
    (if ileb a b then x else y) = if a ≤ b then x else y := by
  unfold ileb
  by_cases h : a ≤ b <;> simp [h]

lemma imax_eq (a b : Int) : imax a b = max a b := by
  unfold imax
  rw [ileb_ite]
  split_ifs with h <;> omega

lemma imin_eq (a b : Int) : imin a b = min a b := by
  unfold imin
  rw [ileb_ite]
  split_ifs with h <;> omega

lemma playerEqb_iff (p q : Player) : playerEqb p q = true ↔ p = q := by
  cases p <;> cases q <;> simp [playerEqb]

lemma playerEqb_self (p : Player) : playerEqb p p = true := by
  cases p <;> rfl

/-! Basic lemmas about the embedding. -/

lemma maxMove_score (a b : Move) : (maxMove a b).score = max a.score b.score := by
  unfold maxMove
  split_ifs with h
  · simp only [Bool.or_eq_true, Bool.and_eq_true, iltb, ieqb, decide_eq_true_iff,
      Nat.ble_eq] at h
    rcases h with h | ⟨h, -⟩ <;> omega
  · simp only [Bool.or_eq_true, Bool.and_eq_true, iltb, ieqb, decide_eq_true_iff,
      Nat.ble_eq, not_or, not_and] at h
    obtain ⟨h1, -⟩ := h
    omega

lemma minMove_score (a b : Move) : (minMove a b).score = min a.score b.score := by
  unfold minMove
  split_ifs with h
  · simp only [Bool.or_eq_true, Bool.and_eq_true, iltb, ieqb, decide_eq_true_iff,
      Nat.blt_eq] at h
    rcases h with h | ⟨h, -⟩ <;> omega
  · simp only [Bool.or_eq_true, Bool.and_eq_true, iltb, ieqb, decide_eq_true_iff,
      Nat.blt_eq, not_or, not_and] at h
    obtain ⟨h1, -⟩ := h
    omega

lemma emptyCount_setCell_some (b : Board) (i : Nat) (p : Player) (hi : i < b.length)
    (he : cellAt b i = none) : emptyCount (setCell b i (some p)) + 1 = emptyCount b := by
  induction b generalizing i with
  | nil => simp at hi
  | cons c tl ih =>
    cases i with
    | zero =>
      rw [cellAt_cons_zero] at he
      subst he
      rw [setCell_cons_zero]
      simp [emptyCount, List.countP_cons]
    | succ n =>
      rw [cellAt_cons_succ] at he
      simp only [List.length_cons, Nat.add_lt_add_iff_right] at hi
      have h2 := ih n hi he
      rw [setCell_cons_succ]
      simp only [emptyCount, List.countP_cons] at *
      omega

lemma check_win_NotEnded_pos (b : Board) (h : check_win b = GameResult.NotEnded) :
    0 < emptyCount b := by
  unfold check_win at h
  rcases hs : scanD b b.length ((b.length - 3) / 2 + 1) 0 with - | w
  · rw [hs] at h
    by_cases hc : b.countP (fun c => c.isNone) = 0
    · simp [hc] at h
    · unfold emptyCount
      omega
  · rw [hs] at h
    simp at h

lemma exists_empty_of_pos (b : Board) (h : 0 < emptyCount b) :
    ∃ i, i < b.length ∧ cellAt b i = none := by
  induction b with
  | nil => simp [emptyCount] at h
  | cons c tl ih =>
    cases hc : c with
    | none => exact ⟨0, by simp, by rw [cellAt_cons_zero]⟩
    | some p =>
      subst hc
      have h2 : 0 < emptyCount tl := by
        simpa [emptyCount, List.countP_cons] using h
      obtain ⟨i, hi, hval⟩ := ih h2
      exact ⟨i + 1, by simpa using hi, by rw [cellAt_cons_succ]; exact hval⟩

end Game

namespace Game

/-! Defining equations of the search loops and of `gbm` / `gbmNC`. -/

lemma gbmLoop_zero (recur : Board → Int → Int → Move) (board : Board) (mark : Cell)
    (maximizing : Bool) (i : Nat) (best : Move) (alpha beta : Int) :
    gbmLoop recur board mark maximizing 0 i best alpha beta = best := rfl

lemma gbmLoop_succ_skip (recur : Board → Int → Int → Move) (board : Board) (mark : Cell)
    (maximizing : Bool) (count i : Nat) (best : Move) (alpha beta : Int)
    (hocc : (cellAt board i).isSome) :
    gbmLoop recur board mark maximizing (count + 1) i best alpha beta =
      gbmLoop recur board mark maximizing count (i + 1) best alpha beta := by
  simp only [gbmLoop, hocc, if_true]

lemma gbmLoop_succ_max (recur : Board → Int → Int → Move) (board : Board) (mark : Cell)
    (count i : Nat) (best : Move) (alpha beta : Int)
    (hemp : cellAt board i = none) :
    gbmLoop recur board mark true (count + 1) i best alpha beta =
      (if beta ≤ max alpha (recur (setCell board i mark) alpha beta).score then
        maxMove best { score := (recur (setCell board i mark) alpha beta).score, index := i }
      else
        gbmLoop recur board mark true count (i + 1)
          (maxMove best { score := (recur (setCell board i mark) alpha beta).score, index := i })
          (max alpha (recur (setCell board i mark) alpha beta).score) beta) := by
  simp only [gbmLoop, hemp, Option.isSome_none, Bool.false_eq_true, if_false, if_true,
    imax_eq, ileb_ite]

lemma gbmLoop_succ_min (recur : Board → Int → Int → Move) (board : Board) (mark : Cell)
    (count i : Nat) (best : Move) (alpha beta : Int)
    (hemp : cellAt board i = none) :
    gbmLoop recur board mark false (count + 1) i best alpha beta =
      (if min beta (recur (setCell board i mark) alpha beta).score ≤ alpha then
        minMove best { score := (recur (setCell board i mark) alpha beta).score, index := i }
      else
        gbmLoop recur board mark false count (i + 1)
          (minMove best { score := (recur (setCell board i mark) alpha beta).score, index := i })
          alpha (min beta (recur (setCell board i mark) alpha beta).score)) := by
  simp only [gbmLoop, hemp, Option.isSome_none, Bool.false_eq_true, if_false,
    imin_eq, ileb_ite]

lemma gbmLoopNC_zero (recurN : Board → Move) (board : Board) (mark : Cell)
    (maximizing : Bool) (i : Nat) (best : Move) :
    gbmLoopNC recurN board mark maximizing 0 i best = best := rfl

lemma gbmLoopNC_succ_skip (recurN : Board → Move) (board : Board) (mark : Cell)
    (maximizing : Bool) (count i : Nat) (best : Move)
    (hocc : (cellAt board i).isSome) :
    gbmLoopNC recurN board mark maximizing (count + 1) i best =
      gbmLoopNC recurN board mark maximizing count (i + 1) best := by
  simp only [gbmLoopNC, hocc, if_true]

lemma gbmLoopNC_succ_max (recurN : Board → Move) (board : Board) (mark : Cell)
    (count i : Nat) (best : Move)
    (hemp : cellAt board i = none) :
    gbmLoopNC recurN board mark true (count + 1) i best =
      gbmLoopNC recurN board mark true count (i + 1)
        (maxMove best { score := (recurN (setCell board i mark)).score, index := i }) := by
  simp only [gbmLoopNC, hemp, Option.isSome_none, Bool.false_eq_true, if_false, if_true]

lemma gbmLoopNC_succ_min (recurN : Board → Move) (board : Board) (mark : Cell)
    (count i : Nat) (best : Move)
    (hemp : cellAt board i = none) :
    gbmLoopNC recurN board mark false (count + 1) i best =
      gbmLoopNC recurN board mark false count (i + 1)
        (minMove best { score := (recurN (setCell board i mark)).score, index := i }) := by
  simp only [gbmLoopNC, hemp, Option.isSome_none, Bool.false_eq_true, if_false]

lemma gbm_zero_eq (t : Player) (board : Board) (alpha beta : Int)
    (maximizing : Bool) (depth : Nat) :
    gbm t 0 board alpha beta maximizing depth =
      (match check_win board with
      | GameResult.Win winner =>
          { score := (if playerEqb winner t then (1 : Int) else -1) * 100 +
              (if maximizing then -1 else 1) * (depth : Int),
            index := 0 }
      | GameResult.Tie => { score := 0, index := 0 }
      | GameResult.NotEnded => { score := 0, index := 0 }) := rfl

lemma gbm_succ_eq (t : Player) (f : Nat) (board : Board) (alpha beta : Int)
    (maximizing : Bool) (depth : Nat) :
    gbm t (f + 1) board alpha beta maximizing depth =
      (match check_win board with
      | GameResult.Win winner =>
          { score := (if playerEqb winner t then (1 : Int) else -1) * 100 +
              (if maximizing then -1 else 1) * (depth : Int),
            index := 0 }
      | GameResult.Tie => { score := 0, index := 0 }
      | GameResult.NotEnded =>
          gbmLoop (fun b a bt => gbm t f b a bt (!maximizing) (depth + 1))
            board (maxmin_turn t maximizing) maximizing
            board.length 0
            { score := if maximizing then IMIN else IMAX, index := 0 }
            alpha beta) := rfl

lemma gbmNC_zero_eq (t : Player) (board : Board)
    (maximizing : Bool) (depth : Nat) :
    gbmNC t 0 board maximizing depth =
      (match check_win board with
      | GameResult.Win winner =>
          { score := (if playerEqb winner t then (1 : Int) else -1) * 100 +
              (if maximizing then -1 else 1) * (depth : Int),
            index := 0 }
      | GameResult.Tie => { score := 0, index := 0 }
      | GameResult.NotEnded => { score := 0, index := 0 }) := rfl

lemma gbmNC_succ_eq (t : Player) (f : Nat) (board : Board)
    (maximizing : Bool) (depth : Nat) :
    gbmNC t (f + 1) board maximizing depth =
      (match check_win board with
      | GameResult.Win winner =>
          { score := (if playerEqb winner t then (1 : Int) else -1) * 100 +
              (if maximizing then -1 else 1) * (depth : Int),
            index := 0 }
      | GameResult.Tie => { score := 0, index := 0 }
      | GameResult.NotEnded =>
          gbmLoopNC (fun b => gbmNC t f b (!maximizing) (depth + 1))
            board (maxmin_turn t maximizing) maximizing
            board.length 0
            { score := if maximizing then IMIN else IMAX, index := 0 }) := rfl

lemma gbm_win (t : Player) (fuel : Nat) (board : Board) (alpha beta : Int)
    (maximizing : Bool) (depth : Nat) (w : Player)
    (hcw : check_win board = GameResult.Win w) :
    gbm t fuel board alpha beta maximizing depth =
      { score := (if playerEqb w t then (1 : Int) else -1) * 100 +
          (if maximizing then -1 else 1) * (depth : Int),
        index := 0 } := by
  cases fuel with
  | zero => rw [gbm_zero_eq, hcw]
  | succ f => rw [gbm_succ_eq, hcw]

lemma gbm_tie (t : Player) (fuel : Nat) (board : Board) (alpha beta : Int)
    (maximizing : Bool) (depth : Nat)
    (hcw : check_win board = GameResult.Tie) :
    gbm t fuel board alpha beta maximizing depth = { score := 0, index := 0 } := by
  cases fuel with
  | zero => rw [gbm_zero_eq, hcw]
  | succ f => rw [gbm_succ_eq, hcw]

lemma gbm_zero_notEnded (t : Player) (board : Board) (alpha beta : Int)
    (maximizing : Bool) (depth : Nat)
    (hcw : check_win board = GameResult.NotEnded) :
    gbm t 0 board alpha beta maximizing depth = { score := 0, index := 0 } := by
  rw [gbm_zero_eq, hcw]

lemma gbm_succ_notEnded (t : Player) (f : Nat) (board : Board) (alpha beta : Int)
    (maximizing : Bool) (depth : Nat)
    (hcw : check_win board = GameResult.NotEnded) :
    gbm t (f + 1) board alpha beta maximizing depth =
      gbmLoop (fun b a bt => gbm t f b a bt (!maximizing) (depth + 1))
        board (maxmin_turn t maximizing) maximizing
        board.length 0
        { score := if maximizing then IMIN else IMAX, index := 0 }
        alpha beta := by
  rw [gbm_succ_eq, hcw]

lemma gbmNC_win (t : Player) (fuel : Nat) (board : Board)
    (maximizing : Bool) (depth : Nat) (w : Player)
    (hcw : check_win board = GameResult.Win w) :
    gbmNC t fuel board maximizing depth =
      { score := (if playerEqb w t then (1 : Int) else -1) * 100 +
          (if maximizing then -1 else 1) * (depth : Int),
        index := 0 } := by
  cases fuel with
  | zero => rw [gbmNC_zero_eq, hcw]
  | succ f => rw [gbmNC_succ_eq, hcw]

lemma gbmNC_tie (t : Player) (fuel : Nat) (board : Board)
    (maximizing : Bool) (depth : Nat)
    (hcw : check_win board = GameResult.Tie) :
    gbmNC t fuel board maximizing depth = { score := 0, index := 0 } := by
  cases fuel with
  | zero => rw [gbmNC_zero_eq, hcw]
  | succ f => rw [gbmNC_succ_eq, hcw]

lemma gbmNC_zero_notEnded (t : Player) (board : Board)
    (maximizing : Bool) (depth : Nat)
    (hcw : check_win board = GameResult.NotEnded) :
    gbmNC t 0 board maximizing depth = { score := 0, index := 0 } := by
  rw [gbmNC_zero_eq, hcw]

lemma gbmNC_succ_notEnded (t : Player) (f : Nat) (board : Board)
    (maximizing : Bool) (depth : Nat)
    (hcw : check_win board = GameResult.NotEnded) :
    gbmNC t (f + 1) board maximizing depth =
      gbmLoopNC (fun b => gbmNC t f b (!maximizing) (depth + 1))
        board (maxmin_turn t maximizing) maximizing
        board.length 0
        { score := if maximizing then IMIN else IMAX, index := 0 } := by
  rw [gbmNC_succ_eq, hcw]

end Game

namespace Game

/-- The cutoff-free maximizing fold never decreases the running best score. -/
lemma gbmLoopNC_max_ge (recurN : Board → Move) (board : Board) (mark : Cell) :
    ∀ (count i : Nat) (best : Move),
      best.score ≤ (gbmLoopNC recurN board mark true count i best).score := by
  intro count
  induction count with
  | zero => intro i best; rw [gbmLoopNC_zero]
  | succ c ih =>
    intro i best
    by_cases hocc : (cellAt board i).isSome
    · rw [gbmLoopNC_succ_skip _ _ _ _ _ _ _ hocc]
      exact ih (i + 1) best
    · have hemp : cellAt board i = none := Option.not_isSome_iff_eq_none.mp hocc
      rw [gbmLoopNC_succ_max _ _ _ _ _ _ hemp]
      have h := ih (i + 1) (maxMove best ⟨(recurN (setCell board i mark)).score, i⟩)
      rw [maxMove_score] at h
      dsimp only at h
      omega

/-- The cutoff-free minimizing fold never increases the running best score. -/
lemma gbmLoopNC_min_le (recurN : Board → Move) (board : Board) (mark : Cell) :
    ∀ (count i : Nat) (best : Move),
      (gbmLoopNC recurN board mark false count i best).score ≤ best.score := by
  intro count
  induction count with
  | zero => intro i best; rw [gbmLoopNC_zero]
  | succ c ih =>
    intro i best
    by_cases hocc : (cellAt board i).isSome
    · rw [gbmLoopNC_succ_skip _ _ _ _ _ _ _ hocc]
      exact ih (i + 1) best
    · have hemp : cellAt board i = none := Option.not_isSome_iff_eq_none.mp hocc
      rw [gbmLoopNC_succ_min _ _ _ _ _ _ hemp]
      have h := ih (i + 1) (minMove best ⟨(recurN (setCell board i mark)).score, i⟩)
      rw [minMove_score] at h
      dsimp only at h
      omega

end Game

namespace Game

/-- Alpha-beta trichotomy for the maximizing loop.  `α₀` is the alpha at entry
to the node, `β` its (fixed) beta; `bp`, `bn` and `alpha` are the running states
of the pruned and the cutoff-free loops; `hIH` is the trichotomy for children. -/
lemma gbmLoop_max_tri (recur : Board → Int → Int → Move) (recurN : Board → Move)
    (board : Board) (mark : Cell) (β α₀ : Int) (hα₀ : IMIN ≤ α₀)
    (hIH : ∀ i, i < board.length → cellAt board i = none → ∀ a, IMIN ≤ a → a < β →
      (((recurN (setCell board i mark)).score ≤ a → (recur (setCell board i mark) a β).score ≤ a) ∧
       (a < (recurN (setCell board i mark)).score → (recurN (setCell board i mark)).score < β →
         (recur (setCell board i mark) a β).score = (recurN (setCell board i mark)).score) ∧
       (β ≤ (recurN (setCell board i mark)).score → β ≤ (recur (setCell board i mark) a β).score))) :
    ∀ (count i : Nat) (bp bn : Move) (alpha : Int),
      i + count ≤ board.length →
      alpha = max α₀ bp.score →
      (bn.score ≤ α₀ → bp.score ≤ α₀) →
      (α₀ < bn.score → bp.score = bn.score) →
      alpha < β →
      (((gbmLoopNC recurN board mark true count i bn).score ≤ α₀ →
          (gbmLoop recur board mark true count i bp alpha β).score ≤ α₀) ∧
       (α₀ < (gbmLoopNC recurN board mark true count i bn).score →
          (gbmLoopNC recurN board mark true count i bn).score < β →
          (gbmLoop recur board mark true count i bp alpha β).score =
            (gbmLoopNC recurN board mark true count i bn).score) ∧
       (β ≤ (gbmLoopNC recurN board mark true count i bn).score →
          β ≤ (gbmLoop recur board mark true count i bp alpha β).score)) := by
  intro count
  induction count with
  | zero =>
    intro i bp bn alpha hl ha h2 h3 hab
    rw [gbmLoop_zero, gbmLoopNC_zero]
    refine ⟨h2, fun h1 _ => h3 h1, fun hb => ?_⟩
    have hbn : α₀ < bn.score := by omega
    have := h3 hbn
    omega
  | succ c ih =>
    intro i bp bn alpha hl ha h2 h3 hab
    by_cases hocc : (cellAt board i).isSome
    · rw [gbmLoop_succ_skip _ _ _ _ _ _ _ _ _ hocc, gbmLoopNC_succ_skip _ _ _ _ _ _ _ hocc]
      exact ih (i + 1) bp bn alpha (by omega) ha h2 h3 hab
    · have hemp : cellAt board i = none := Option.not_isSome_iff_eq_none.mp hocc
      have hi : i < board.length := by omega
      rw [gbmLoop_succ_max _ _ _ _ _ _ _ _ hemp, gbmLoopNC_succ_max _ _ _ _ _ _ hemp]
      obtain ⟨ih1, ih2, ih3⟩ := hIH i hi hemp alpha (by omega) hab
      have hmax : (maxMove bp ⟨(recur (setCell board i mark) alpha β).score, i⟩).score =
          max bp.score (recur (setCell board i mark) alpha β).score := by
        rw [maxMove_score]
      have hmaxN : (maxMove bn ⟨(recurN (setCell board i mark)).score, i⟩).score =
          max bn.score (recurN (setCell board i mark)).score := by
        rw [maxMove_score]
      have hcase : (bn.score ≤ α₀ ∧ bp.score ≤ α₀) ∨
          (α₀ < bn.score ∧ bp.score = bn.score) := by
        by_cases hbn : bn.score ≤ α₀
        · exact Or.inl ⟨hbn, h2 hbn⟩
        · exact Or.inr ⟨by omega, h3 (by omega)⟩
      by_cases hc1 : (recurN (setCell board i mark)).score ≤ alpha
      · have hc'1 : (recur (setCell board i mark) alpha β).score ≤ alpha := ih1 hc1
        rw [if_neg (by omega)]
        rcases hcase with ⟨hb1, hb2⟩ | ⟨hb1, hb2⟩ <;>
          exact ih (i + 1) _ _ _ (by omega) (by omega)
            (fun h => by omega) (fun h => by omega) (by omega)
      · by_cases hc2 : (recurN (setCell board i mark)).score < β
        · have hc' : (recur (setCell board i mark) alpha β).score =
              (recurN (setCell board i mark)).score := ih2 (by omega) hc2
          rw [if_neg (by omega)]
          rcases hcase with ⟨hb1, hb2⟩ | ⟨hb1, hb2⟩ <;>
            exact ih (i + 1) _ _ _ (by omega) (by omega)
              (fun h => by omega) (fun h => by omega) (by omega)
        · have hc' : β ≤ (recur (setCell board i mark) alpha β).score := ih3 (by omega)
          rw [if_pos (by omega)]
          have hge := gbmLoopNC_max_ge recurN board mark c (i + 1)
            (maxMove bn ⟨(recurN (setCell board i mark)).score, i⟩)
          rw [hmaxN] at hge
          refine ⟨fun h => by omega, fun hx1 hx2 => by omega, fun _ => by omega⟩

end Game

namespace Game

/-- Alpha-beta trichotomy for the minimizing loop: mirror of `gbmLoop_max_tri`
with the roles of the window ends exchanged (`α` is fixed, `beta` shrinks). -/
lemma gbmLoop_min_tri (recur : Board → Int → Int → Move) (recurN : Board → Move)
    (board : Board) (mark : Cell) (α β₀ : Int) (hβ₀ : β₀ ≤ IMAX)
    (hIH : ∀ i, i < board.length → cellAt board i = none → ∀ b, b ≤ IMAX → α < b →
      (((recurN (setCell board i mark)).score ≤ α → (recur (setCell board i mark) α b).score ≤ α) ∧
       (α < (recurN (setCell board i mark)).score → (recurN (setCell board i mark)).score < b →
         (recur (setCell board i mark) α b).score = (recurN (setCell board i mark)).score) ∧
       (b ≤ (recurN (setCell board i mark)).score → b ≤ (recur (setCell board i mark) α b).score))) :
    ∀ (count i : Nat) (bp bn : Move) (beta : Int),
      i + count ≤ board.length →
      beta = min β₀ bp.score →
      (β₀ ≤ bn.score → β₀ ≤ bp.score) →
      (bn.score < β₀ → bp.score = bn.score) →
      α < beta →
      (((gbmLoopNC recurN board mark false count i bn).score ≤ α →
          (gbmLoop recur board mark false count i bp α beta).score ≤ α) ∧
       (α < (gbmLoopNC recurN board mark false count i bn).score →
          (gbmLoopNC recurN board mark false count i bn).score < β₀ →
          (gbmLoop recur board mark false count i bp α beta).score =
            (gbmLoopNC recurN board mark false count i bn).score) ∧
       (β₀ ≤ (gbmLoopNC recurN board mark false count i bn).score →
          β₀ ≤ (gbmLoop recur board mark false count i bp α beta).score)) := by
  intro count
  induction count with
  | zero =>
    intro i bp bn beta hl hb h2 h3 hab
    rw [gbmLoop_zero, gbmLoopNC_zero]
    have hcase : (β₀ ≤ bn.score ∧ β₀ ≤ bp.score) ∨
        (bn.score < β₀ ∧ bp.score = bn.score) := by
      by_cases hbn : β₀ ≤ bn.score
      · exact Or.inl ⟨hbn, h2 hbn⟩
      · exact Or.inr ⟨by omega, h3 (by omega)⟩
    rcases hcase with ⟨hb1, hb2⟩ | ⟨hb1, hb2⟩ <;>
      exact ⟨fun h => by omega, fun hx1 hx2 => by omega, fun h => by omega⟩
  | succ c ih =>
    intro i bp bn beta hl hb h2 h3 hab
    by_cases hocc : (cellAt board i).isSome
    · rw [gbmLoop_succ_skip _ _ _ _ _ _ _ _ _ hocc, gbmLoopNC_succ_skip _ _ _ _ _ _ _ hocc]
      exact ih (i + 1) bp bn beta (by omega) hb h2 h3 hab
    · have hemp : cellAt board i = none := Option.not_isSome_iff_eq_none.mp hocc
      have hi : i < board.length := by omega
      rw [gbmLoop_succ_min _ _ _ _ _ _ _ _ hemp, gbmLoopNC_succ_min _ _ _ _ _ _ hemp]
      obtain ⟨ih1, ih2, ih3⟩ := hIH i hi hemp beta (by omega) hab
      have hmin : (minMove bp ⟨(recur (setCell board i mark) α beta).score, i⟩).score =
          min bp.score (recur (setCell board i mark) α beta).score := by
        rw [minMove_score]
      have hminN : (minMove bn ⟨(recurN (setCell board i mark)).score, i⟩).score =
          min bn.score (recurN (setCell board i mark)).score := by
        rw [minMove_score]
      have hcase : (β₀ ≤ bn.score ∧ β₀ ≤ bp.score) ∨
          (bn.score < β₀ ∧ bp.score = bn.score) := by
        by_cases hbn : β₀ ≤ bn.score
        · exact Or.inl ⟨hbn, h2 hbn⟩
        · exact Or.inr ⟨by omega, h3 (by omega)⟩
      by_cases hc1 : beta ≤ (recurN (setCell board i mark)).score
      · have hc' : beta ≤ (recur (setCell board i mark) α beta).score := ih3 hc1
        rw [if_neg (by omega)]
        rcases hcase with ⟨hb1, hb2⟩ | ⟨hb1, hb2⟩ <;>
          exact ih (i + 1) _ _ _ (by omega) (by omega)
            (fun h => by omega) (fun h => by omega) (by omega)
      · by_cases hc2 : α < (recurN (setCell board i mark)).score
        · have hc' : (recur (setCell board i mark) α beta).score =
              (recurN (setCell board i mark)).score := ih2 hc2 (by omega)
          rw [if_neg (by omega)]
          rcases hcase with ⟨hb1, hb2⟩ | ⟨hb1, hb2⟩ <;>
            exact ih (i + 1) _ _ _ (by omega) (by omega)
              (fun h => by omega) (fun h => by omega) (by omega)
        · have hc' : (recur (setCell board i mark) α beta).score ≤ α := ih1 (by omega)
          rw [if_pos (by omega)]
          have hle := gbmLoopNC_min_le recurN board mark c (i + 1)
            (minMove bn ⟨(recurN (setCell board i mark)).score, i⟩)
          rw [hminN] at hle
          refine ⟨fun h => by omega, fun hx1 hx2 => by omega, fun hx => by omega⟩

end Game

namespace Game

/-- Upper bound through the maximizing fold: if every child score and the
running best are at most `B`, so is the result. -/
lemma gbmLoopNC_max_le_of (recurN : Board → Move) (board : Board) (mark : Cell) (B : Int)
    (hch : ∀ i, i < board.length → cellAt board i = none →
      (recurN (setCell board i mark)).score ≤ B) :
    ∀ (count i : Nat) (best : Move), i + count ≤ board.length →
      best.score ≤ B → (gbmLoopNC recurN board mark true count i best).score ≤ B := by
  intro count
  induction count with
  | zero =>
    intro i best hl hb
    rw [gbmLoopNC_zero]
    exact hb
  | succ c ih =>
    intro i best hl hb
    by_cases hocc : (cellAt board i).isSome
    · rw [gbmLoopNC_succ_skip _ _ _ _ _ _ _ hocc]
      exact ih (i + 1) best (by omega) hb
    · have hemp : cellAt board i = none := Option.not_isSome_iff_eq_none.mp hocc
      rw [gbmLoopNC_succ_max _ _ _ _ _ _ hemp]
      have hc := hch i (by omega) hemp
      refine ih (i + 1) _ (by omega) ?_
      rw [maxMove_score]
      dsimp only
      omega

/-- Lower bound through the minimizing fold: if every child score and the
running best are at least `B`, so is the result. -/
lemma gbmLoopNC_min_ge_of (recurN : Board → Move) (board : Board) (mark : Cell) (B : Int)
    (hch : ∀ i, i < board.length → cellAt board i = none →
      B ≤ (recurN (setCell board i mark)).score) :
    ∀ (count i : Nat) (best : Move), i + count ≤ board.length →
      B ≤ best.score → B ≤ (gbmLoopNC recurN board mark false count i best).score := by
  intro count
  induction count with
  | zero =>
    intro i best hl hb
    rw [gbmLoopNC_zero]
    exact hb
  | succ c ih =>
    intro i best hl hb
    by_cases hocc : (cellAt board i).isSome
    · rw [gbmLoopNC_succ_skip _ _ _ _ _ _ _ hocc]
      exact ih (i + 1) best (by omega) hb
    · have hemp : cellAt board i = none := Option.not_isSome_iff_eq_none.mp hocc
      rw [gbmLoopNC_succ_min _ _ _ _ _ _ hemp]
      have hc := hch i (by omega) hemp
      refine ih (i + 1) _ (by omega) ?_
      rw [minMove_score]
      dsimp only
      omega

/-- The maximizing fold result is at least any processed child score. -/
lemma gbmLoopNC_max_mem_ge (recurN : Board → Move) (board : Board) (mark : Cell) :
    ∀ (count i : Nat) (best : Move) (i0 : Nat), i ≤ i0 → i0 < i + count →
      cellAt board i0 = none →
      (recurN (setCell board i0 mark)).score ≤
        (gbmLoopNC recurN board mark true count i best).score := by
  intro count
  induction count with
  | zero =>
    intro i best i0 h1 h2 hemp0
    omega
  | succ c ih =>
    intro i best i0 h1 h2 hemp0
    by_cases hii : i0 = i
    · subst hii
      have hemp : cellAt board i0 = none := hemp0
      rw [gbmLoopNC_succ_max _ _ _ _ _ _ hemp]
      have h := gbmLoopNC_max_ge recurN board mark c (i0 + 1)
        (maxMove best ⟨(recurN (setCell board i0 mark)).score, i0⟩)
      rw [maxMove_score] at h
      dsimp only at h
      omega
    · by_cases hocc : (cellAt board i).isSome
      · rw [gbmLoopNC_succ_skip _ _ _ _ _ _ _ hocc]
        exact ih (i + 1) best i0 (by omega) (by omega) hemp0
      · have hemp : cellAt board i = none := Option.not_isSome_iff_eq_none.mp hocc
        rw [gbmLoopNC_succ_max _ _ _ _ _ _ hemp]
        exact ih (i + 1) _ i0 (by omega) (by omega) hemp0

/-- The minimizing fold result is at most any processed child score. -/
lemma gbmLoopNC_min_mem_le (recurN : Board → Move) (board : Board) (mark : Cell) :
    ∀ (count i : Nat) (best : Move) (i0 : Nat), i ≤ i0 → i0 < i + count →
      cellAt board i0 = none →
      (gbmLoopNC recurN board mark false count i best).score ≤
        (recurN (setCell board i0 mark)).score := by
  intro count
  induction count with
  | zero =>
    intro i best i0 h1 h2 hemp0
    omega
  | succ c ih =>
    intro i best i0 h1 h2 hemp0
    by_cases hii : i0 = i
    · subst hii
      have hemp : cellAt board i0 = none := hemp0
      rw [gbmLoopNC_succ_min _ _ _ _ _ _ hemp]
      have h := gbmLoopNC_min_le recurN board mark c (i0 + 1)
        (minMove best ⟨(recurN (setCell board i0 mark)).score, i0⟩)
      rw [minMove_score] at h
      dsimp only at h
      omega
    · by_cases hocc : (cellAt board i).isSome
      · rw [gbmLoopNC_succ_skip _ _ _ _ _ _ _ hocc]
        exact ih (i + 1) best i0 (by omega) (by omega) hemp0
      · have hemp : cellAt board i = none := Option.not_isSome_iff_eq_none.mp hocc
        rw [gbmLoopNC_succ_min _ _ _ _ _ _ hemp]
        exact ih (i + 1) _ i0 (by omega) (by omega) hemp0

end Game

namespace Game

/-- The cutoff-free score is bounded by `100 + depth + fuel` in absolute value
(terminal scores are `±100 ± depth` with depth growing by one per level). -/
lemma gbmNC_bound (t : Player) : ∀ (fuel : Nat) (board : Board) (maximizing : Bool)
    (depth : Nat), emptyCount board ≤ fuel →
    -(100 + (depth : Int) + fuel) ≤ (gbmNC t fuel board maximizing depth).score ∧
      (gbmNC t fuel board maximizing depth).score ≤ 100 + (depth : Int) + fuel := by
  intro fuel
  induction fuel with
  | zero =>
    intro board maximizing depth hemp
    rcases hcw : check_win board with w | - | -
    · rw [gbmNC_win _ _ _ _ _ _ hcw]
      dsimp only
      split_ifs <;> constructor <;> omega
    · rw [gbmNC_tie _ _ _ _ _ hcw]
      dsimp only
      constructor <;> omega
    · rw [gbmNC_zero_notEnded _ _ _ _ hcw]
      dsimp only
      constructor <;> omega
  | succ f ihf =>
    intro board maximizing depth hemp
    rcases hcw : check_win board with w | - | -
    · rw [gbmNC_win _ _ _ _ _ _ hcw]
      dsimp only
      split_ifs <;> constructor <;> omega
    · rw [gbmNC_tie _ _ _ _ _ hcw]
      dsimp only
      constructor <;> omega
    · have hpos := check_win_NotEnded_pos board hcw
      obtain ⟨i0, hi0, hie0⟩ := exists_empty_of_pos board hpos
      cases maximizing with
      | true =>
        rw [gbmNC_succ_notEnded _ _ _ _ _ hcw]
        simp only [Bool.not_true, eq_self_iff_true, if_true]
        have hmt : maxmin_turn t true = some t := rfl
        constructor
        · have h1 := gbmLoopNC_max_mem_ge
            (fun b => gbmNC t f b false (depth + 1)) board (maxmin_turn t true)
            board.length 0 ⟨IMIN, 0⟩ i0 (Nat.zero_le i0) (by omega) hie0
          simp only [] at h1
          have h2 := ihf (setCell board i0 (maxmin_turn t true)) false (depth + 1) (by
            rw [hmt]
            have h3 := emptyCount_setCell_some board i0 t hi0 hie0
            omega)
          push_cast at h2 ⊢
          omega
        · refine gbmLoopNC_max_le_of _ board (maxmin_turn t true)
            (100 + (depth : Int) + (f + 1)) (fun i hi hie => ?_)
            board.length 0 ⟨IMIN, 0⟩ (by omega) ?_
          · have h2 := ihf (setCell board i (maxmin_turn t true)) false (depth + 1) (by
              rw [hmt]
              have h3 := emptyCount_setCell_some board i t hi hie
              omega)
            push_cast at h2 ⊢
            omega
          · have hIMIN : IMIN < 0 := by norm_num [IMIN]
            dsimp only
            omega
      | false =>
        rw [gbmNC_succ_notEnded _ _ _ _ _ hcw]
        simp only [Bool.not_false, Bool.false_eq_true, if_false]
        have hmt : maxmin_turn t false = some (turn t) := rfl
        constructor
        · refine gbmLoopNC_min_ge_of _ board (maxmin_turn t false)
            (-(100 + (depth : Int) + (f + 1))) (fun i hi hie => ?_)
            board.length 0 ⟨IMAX, 0⟩ (by omega) ?_
          · have h2 := ihf (setCell board i (maxmin_turn t false)) true (depth + 1) (by
              rw [hmt]
              have h3 := emptyCount_setCell_some board i (turn t) hi hie
              omega)
            push_cast at h2 ⊢
            omega
          · have hIMAX : 0 < IMAX := by norm_num [IMAX]
            dsimp only
            omega
        · have h1 := gbmLoopNC_min_mem_le
            (fun b => gbmNC t f b true (depth + 1)) board (maxmin_turn t false)
            board.length 0 ⟨IMAX, 0⟩ i0 (Nat.zero_le i0) (by omega) hie0
          simp only [] at h1
          have h2 := ihf (setCell board i0 (maxmin_turn t false)) true (depth + 1) (by
            rw [hmt]
            have h3 := emptyCount_setCell_some board i0 (turn t) hi0 hie0
            omega)
          push_cast at h2 ⊢
          omega

end Game

namespace Game

/-- Alpha-beta trichotomy for `gbm` against `gbmNC` at every node, by induction
on the fuel, alternating the two loop lemmas with the polarity. -/
lemma gbm_tri (t : Player) : ∀ (fuel : Nat) (board : Board) (maximizing : Bool)
    (depth : Nat) (alpha beta : Int),
    emptyCount board ≤ fuel → IMIN ≤ alpha → beta ≤ IMAX → alpha < beta →
    (((gbmNC t fuel board maximizing depth).score ≤ alpha →
        (gbm t fuel board alpha beta maximizing depth).score ≤ alpha) ∧
     (alpha < (gbmNC t fuel board maximizing depth).score →
        (gbmNC t fuel board maximizing depth).score < beta →
        (gbm t fuel board alpha beta maximizing depth).score =
          (gbmNC t fuel board maximizing depth).score) ∧
     (beta ≤ (gbmNC t fuel board maximizing depth).score →
        beta ≤ (gbm t fuel board alpha beta maximizing depth).score)) := by
  intro fuel
  induction fuel with
  | zero =>
    intro board maximizing depth alpha beta hemp hmin hmax hab
    rcases hcw : check_win board with w | - | -
    · rw [gbm_win _ _ _ _ _ _ _ _ hcw, gbmNC_win _ _ _ _ _ _ hcw]
      exact ⟨fun h => h, fun _ _ => rfl, fun h => h⟩
    · rw [gbm_tie _ _ _ _ _ _ _ hcw, gbmNC_tie _ _ _ _ _ hcw]
      exact ⟨fun h => h, fun _ _ => rfl, fun h => h⟩
    · rw [gbm_zero_notEnded _ _ _ _ _ _ hcw, gbmNC_zero_notEnded _ _ _ _ hcw]
      exact ⟨fun h => h, fun _ _ => rfl, fun h => h⟩
  | succ f ihf =>
    intro board maximizing depth alpha beta hemp hmin hmax hab
    rcases hcw : check_win board with w | - | -
    · rw [gbm_win _ _ _ _ _ _ _ _ hcw, gbmNC_win _ _ _ _ _ _ hcw]
      exact ⟨fun h => h, fun _ _ => rfl, fun h => h⟩
    · rw [gbm_tie _ _ _ _ _ _ _ hcw, gbmNC_tie _ _ _ _ _ hcw]
      exact ⟨fun h => h, fun _ _ => rfl, fun h => h⟩
    · have hpos := check_win_NotEnded_pos board hcw
      cases maximizing with
      | true =>
        rw [gbm_succ_notEnded _ _ _ _ _ _ _ hcw, gbmNC_succ_notEnded _ _ _ _ _ hcw]
        simp only [Bool.not_true, eq_self_iff_true, if_true]
        have hmt : maxmin_turn t true = some t := rfl
        refine gbmLoop_max_tri _ _ board (maxmin_turn t true) beta alpha hmin
          (fun i hi hie a ha1 ha2 => ?_) board.length 0 _ _ alpha
          (by omega) (by dsimp only; omega)
          (fun h => h) (fun _ => rfl) hab
        have hset : emptyCount (setCell board i (maxmin_turn t true)) ≤ f := by
          rw [hmt]
          have h1 := emptyCount_setCell_some board i t hi hie
          omega
        exact ihf (setCell board i (maxmin_turn t true)) false (depth + 1) a beta
          hset ha1 hmax ha2
      | false =>
        rw [gbm_succ_notEnded _ _ _ _ _ _ _ hcw, gbmNC_succ_notEnded _ _ _ _ _ hcw]
        simp only [Bool.not_false, Bool.false_eq_true, if_false]
        have hmt : maxmin_turn t false = some (turn t) := rfl
        refine gbmLoop_min_tri _ _ board (maxmin_turn t false) alpha beta hmax
          (fun i hi hie b hb1 hb2 => ?_) board.length 0 _ _ beta
          (by omega) (by dsimp only; omega)
          (fun h => h) (fun _ => rfl) hab
        have hset : emptyCount (setCell board i (maxmin_turn t false)) ≤ f := by
          rw [hmt]
          have h1 := emptyCount_setCell_some board i (turn t) hi hie
          omega
        exact ihf (setCell board i (maxmin_turn t false)) true (depth + 1) alpha b
          hset hmin hb1 hb2

end Game

namespace Game

set_option maxRecDepth 100000

/-- C10: every cell access of `check_win` is in bounds on boards of length ≥ 3:
the loops visit distances `d ≤ (len - 3) / 2` and starts `j ≤ len - 3 - 2*d`,
and each probed offset `j + k * (d + 1)` with `k ≤ 2` is below `len`; hence
`check_win?` succeeds exactly on boards of length ≥ 3, while on boards of 0, 1
or 2 cells the `board.len() - 3` underflow aborts the program (modelled by
`none`). -/
theorem c10_accesses_in_bounds :
    (∀ len, 3 ≤ len → ∀ d j k, d ≤ (len - 3) / 2 → j ≤ len - 3 - 2 * d → k ≤ 2 →
      j + k * (d + 1) < len) ∧
    (∀ b : Board, 3 ≤ b.length → check_win? b = some (check_win b)) ∧
    (∀ b : Board, b.length < 3 → check_win? b = none) := by
  refine ⟨?_, ?_, ?_⟩
  · intro len h3 d j k hd hj hk
    have h2d : 2 * d ≤ len - 3 := by omega
    interval_cases k <;> omega
  · intro b h3
    unfold check_win?
    rw [if_neg (by omega)]
  · intro b h3
    unfold check_win?
    rw [if_pos h3]

/-- Witness for C10 at `len = 9`, probe `(d, j) = (1, 2)`, `k = 2`, and at
concrete boards. -/
theorem c10_accesses_in_bounds_witness :
    (2 + 2 * (1 + 1) < 9) ∧ check_win? e9 = some (check_win e9) ∧
      check_win? ([] : Board) = none :=
  ⟨c10_accesses_in_bounds.1 9 (by norm_num) 1 2 2 (by norm_num) (by norm_num) (by norm_num),
   c10_accesses_in_bounds.2.1 e9 (by decide),
   c10_accesses_in_bounds.2.2 [] (by decide)⟩

/-- C1: on the board `X O X / O X O / _ _ O` with X to move, `player_move 6`
returns `Ok(Win(O))`, not `Ok(Win(X))`: `check_win` hands the win to the
opponent of the player owning the three marks. -/
theorem c1_win_attributed_to_opponent :
    player_move gC1 6 = some (gC1after, Except.ok (GameResult.Win Player.O)) ∧
      Player.O ≠ Player.X := by
  constructor
  · decide
  · decide

/-- C2: the board `_ X X / X _ _ / _ _ _` owns no genuine row, column or diagonal
triple, yet `check_win` reports a win: the stride-1 scan wraps the run 1,2,3
across the first row boundary (and hands the win to O although the marks are X). -/
theorem c2_wrapping_run_reported_as_win :
    stdLines3.all (fun l => !(lineOwned bC2 l)) = true ∧
      check_win bC2 = GameResult.Win Player.O := by
  constructor
  · decide
  · decide

/-- C5 counterexample: on `O O O / _ _ _ / _ _ _` the detector returns
`Win (turn O) = Win X`, so with perspective player X the winner equals the
perspective player; at a minimizing node with depth 1 the returned score is
`101 = 100 + depth`, not `99 = 100 - depth` as the claim states. -/
theorem c5_depth_sign_cex :
    check_win bOOO = GameResult.Win Player.X ∧
      gbm Player.X 0 bOOO IMIN IMAX false 1 = { score := 101, index := 0 } ∧
      (101 : Int) ≠ 100 - 1 := by
  refine ⟨by decide, by decide, by decide⟩

/-- C5 amended: at a terminal `Win w` board the score is `+100` when `w` equals
the perspective player and `-100` otherwise, with the depth added in the
direction given by the node polarity: `-depth` at maximizing nodes and `+depth`
at minimizing nodes (not always in the unfavorable direction). -/
theorem c5_terminal_score (t : Player) (fuel : Nat) (b : Board) (alpha beta : Int)
    (maximizing : Bool) (depth : Nat) (w : Player)
    (hw : check_win b = GameResult.Win w) :
    gbm t fuel b alpha beta maximizing depth =
      { score := (if w = t then (100 : Int) else -100) +
          (if maximizing then -(depth : Int) else depth),
        index := 0 } := by
  rw [gbm_win _ _ _ _ _ _ _ _ hw]
  by_cases hwt : w = t
  · simp only [hwt, playerEqb_self, eq_self_iff_true, if_true]
    congr 1
    split_ifs <;> ring
  · have hb : playerEqb w t = false := by
      cases hpq : playerEqb w t
      · rfl
      · exact absurd ((playerEqb_iff w t).mp hpq) hwt
    simp only [hb, Bool.false_eq_true, if_false]
    rw [if_neg hwt]
    congr 1
    split_ifs <;> ring

/-- Witness for C5 at the concrete board `bOOO`, perspective X, minimizing, depth 1. -/
theorem c5_terminal_score_witness :
    gbm Player.X 0 bOOO IMIN IMAX false 1 =
      { score := (if Player.X = Player.X then (100 : Int) else -100) +
          (if false then -(1 : Int) else 1),
        index := 0 } :=
  c5_terminal_score Player.X 0 bOOO IMIN IMAX false 1 Player.X (by decide)

/-- C7: `player_move` does not return `Err(IndexOutOfRange)` on an out-of-range
index; it performs the unchecked access `self.board[place]` and aborts
(modelled by `none`), here at index 9 = N² on two 9-cell states. -/
theorem c7_out_of_range_panics :
    player_move (with_size 9) 9 = none ∧ player_move gC1 9 = none := by
  constructor
  · decide
  · decide

/-- C8: an in-range move onto an occupied cell returns `Err(PlaceIsOccupied)`
and leaves the state untouched: the returned state is the input state itself
(board and turn unchanged), because the Rust function returns before mutating. -/
theorem c8_occupied_leaves_state (g : TicTacToe) (place : Nat)
    (h1 : place < g.board.length) (h2 : (g.board.getD place none).isSome) :
    player_move g place = some (g, Except.error MoveError.PlaceIsOccupied) := by
  unfold player_move
  rw [if_pos h1, if_pos h2]

/-- Witness for C8: cell 0 of `gC1` is occupied. -/
theorem c8_occupied_leaves_state_witness :
    player_move gC1 0 = some (gC1, Except.error MoveError.PlaceIsOccupied) :=
  c8_occupied_leaves_state gC1 0 (by decide) (by decide)

/-- Board length is preserved by any non-aborting `player_move`. -/
lemma player_move_preserves_length (g : TicTacToe) (p : Nat) (g' : TicTacToe)
    (r : Except MoveError GameResult) (h : player_move g p = some (g', r)) :
    g'.board.length = g.board.length := by
  unfold player_move at h
  by_cases hp : p < g.board.length
  · rw [if_pos hp] at h
    by_cases hocc : (g.board.getD p none).isSome
    · rw [if_pos hocc] at h
      injection h with h'
      have hg : g = g' := congrArg Prod.fst h'
      rw [← hg]
    · rw [if_neg hocc] at h
      rcases hcw : check_win? (g.board.set p (some g.turn)) with _ | res
      · rw [hcw] at h
        simp at h
      · rw [hcw] at h
        simp only [Option.map_some'] at h
        injection h with h'
        have hg : ({ board := g.board.set p (some g.turn), turn := turn g.turn } :
            TicTacToe) = g' := congrArg Prod.fst h'
        rw [← hg]
        exact List.length_set ..
  · rw [if_neg hp] at h
    simp at h

/-- C9 counterexample: `with_size 3` builds a board of 3 cells, not 3² = 9:
the constructor argument is the total cell count, and no validation happens. -/
theorem c9_size_is_cell_count_cex :
    (with_size 3).board.length = 3 ∧ (with_size 3).board.length ≠ 9 := by
  constructor
  · decide
  · decide

/-- C9 amended: `with_size s` builds a board of exactly `s` cells (the argument
is the cell count, with no perfect-square or ≥ 9 validation), and the board
length is preserved by `reset`, `player_move` and `ai_move`. -/
theorem c9_size_invariant :
    (∀ s, (with_size s).board.length = s) ∧
    (∀ g : TicTacToe, (reset g).board.length = g.board.length) ∧
    (∀ (g : TicTacToe) (p : Nat) (g' : TicTacToe) (r : Except MoveError GameResult),
      player_move g p = some (g', r) → g'.board.length = g.board.length) ∧
    (∀ (g g' : TicTacToe) (r : Except MoveError GameResult),
      ai_move g = some (g', r) → g'.board.length = g.board.length) := by
  refine ⟨?_, ?_, ?_, ?_⟩
  · intro s
    simp [with_size]
  · intro g
    simp [reset, with_size]
  · exact player_move_preserves_length
  · intro g g' r h
    exact player_move_preserves_length g _ g' r h

/-- Witness for C9: a successful move on the 9-cell empty state keeps length 9. -/
theorem c9_size_invariant_witness :
    ({ board := (List.replicate 9 (none : Cell)).set 0 (some Player.X),
        turn := Player.O } : TicTacToe).board.length = (with_size 9).board.length ∧
      (with_size 9).board.length = 9 :=
  ⟨c9_size_invariant.2.2.1 (with_size 9) 0 _ (Except.ok GameResult.NotEnded) (by decide),
   c9_size_invariant.1 9⟩

/-- C6 counterexample: on `O O X / X O X / X _ _` (not terminal, empty cells 7
and 8) both moves of X end the game with score -99, yet the root returns index
8, the later of the two tying cells, not the first one in scan order. -/
theorem c6_tiebreak_cex :
    check_win bC6 = GameResult.NotEnded ∧
      bC6.getD 7 none = none ∧ bC6.getD 8 none = none ∧
      (gbm Player.X 1 (bC6.set 7 (some Player.X)) IMIN IMAX false 1).score = -99 ∧
      (gbm Player.X 1 (bC6.set 8 (some Player.X)) IMIN IMAX false 1).score = -99 ∧
      gbm Player.X 2 bC6 IMIN IMAX true 0 = { score := -99, index := 8 } := by
  refine ⟨by decide, by decide, by decide, by decide, by decide, by decide⟩

/-- C6 amended: equal-score ties are resolved by the derived lexicographic
`(score, index)` order under `max`/`min`: at a maximizing node a tying child
with a larger index replaces the incumbent (the last tying cell encountered
wins, as in the concrete run of `c6_tiebreak_cex`), while at a minimizing node
the incumbent with the smaller index is kept (the first tying cell wins). -/
theorem c6_tiebreak_rule :
    (∀ (s : Int) (i j : Nat), i ≤ j →
      maxMove { score := s, index := i } { score := s, index := j } =
        { score := s, index := j }) ∧
    (∀ (s : Int) (i j : Nat), i < j →
      minMove { score := s, index := i } { score := s, index := j } =
        { score := s, index := i }) := by
  constructor
  · intro s i j hij
    unfold maxMove
    dsimp only
    split_ifs with h
    · rfl
    · exfalso
      apply h
      simp only [Bool.or_eq_true, Bool.and_eq_true, iltb, ieqb, decide_eq_true_iff,
        Nat.ble_eq]
      refine Or.inr ⟨?_, hij⟩
      trivial
  · intro s i j hij
    unfold minMove
    dsimp only
    split_ifs with h
    · exfalso
      simp only [Bool.or_eq_true, Bool.and_eq_true, iltb, ieqb, decide_eq_true_iff,
        Nat.blt_eq] at h
      rcases h with h | ⟨-, h⟩ <;> omega
    · rfl

/-- Witness for C6 tie-break facts at concrete moves. -/
theorem c6_tiebreak_rule_witness :
    maxMove { score := (0 : Int), index := 1 } { score := (0 : Int), index := 2 } =
        { score := (0 : Int), index := 2 } ∧
      minMove { score := (0 : Int), index := 1 } { score := (0 : Int), index := 2 } =
        { score := (0 : Int), index := 1 } :=
  ⟨c6_tiebreak_rule.1 0 1 2 (by norm_num), c6_tiebreak_rule.2 0 1 2 (by norm_num)⟩

/-- C4 counterexample: on `O X X / O O _ / _ _ _` with perspective X, the
alpha-beta search and the cutoff-free search return the same score 98 but
different indices (8 with pruning, 7 without): pruning changes the chosen index. -/
theorem c4_pruning_changes_index :
    gbm Player.X 4 bC4 IMIN IMAX true 0 = { score := 98, index := 8 } ∧
      gbmNC Player.X 4 bC4 true 0 = { score := 98, index := 7 } ∧
      gbm Player.X 4 bC4 IMIN IMAX true 0 ≠ gbmNC Player.X 4 bC4 true 0 := by
  refine ⟨by decide, by decide, by decide⟩

/-- C4 amended: with the full window `[i64::MIN, i64::MAX]` the alpha-beta
search returns exactly the score of the cutoff-free search (for any fuel
covering the empty cells, any polarity and any depth small enough for the
scores to stay strictly inside the window); the chosen index may differ (see
the counterexample on `bC4`). -/
theorem c4_pruning_preserves_score (t : Player) (fuel : Nat) (board : Board)
    (maximizing : Bool) (depth : Nat) (hfuel : emptyCount board ≤ fuel)
    (hsmall : 100 + (depth : Int) + fuel ≤ 2 ^ 62) :
    (gbm t fuel board IMIN IMAX maximizing depth).score =
      (gbmNC t fuel board maximizing depth).score := by
  obtain ⟨hlo, hhi⟩ := gbmNC_bound t fuel board maximizing depth hfuel
  have e1 : ((2 : Int) ^ 62) = 4611686018427387904 := by norm_num
  have e2 : IMIN = -9223372036854775808 := by norm_num [IMIN]
  have e3 : IMAX = 9223372036854775807 := by norm_num [IMAX]
  have hd : (0 : Int) ≤ (depth : Int) := Int.ofNat_nonneg depth
  have hf : (0 : Int) ≤ (fuel : Int) := Int.ofNat_nonneg fuel
  exact (gbm_tri t fuel board maximizing depth IMIN IMAX hfuel le_rfl le_rfl
    (by omega)).2.1 (by omega) (by omega)

/-- Witness for the amended C4 on the concrete board `bC4`. -/
theorem c4_pruning_preserves_score_witness :
    (gbm Player.X 4 bC4 IMIN IMAX true 0).score = (gbmNC Player.X 4 bC4 true 0).score :=
  c4_pruning_preserves_score Player.X 4 bC4 true 0 (by decide) (by norm_num)

end Game

namespace Game

set_option maxRecDepth 1000000 in
set_option maxHeartbeats 1000000 in
/-- C3: on the empty 3x3 board the search does not return score 0: with
perspective player X it returns score -91 (choosing index 8).  The wrapping
triples accepted by `check_win` and the winner inversion documented in C1 make
the engine head for a fast loss instead of the draw the spec expects. -/
theorem c3_empty_board_score :
    gbm Player.X 9 e9 IMIN IMAX true 0 = { score := -91, index := 8 } ∧
      (-91 : Int) ≠ 0 := by
  constructor
  · decide!
  · decide

end Game
